import Mathlib

/-!
Shallow embedding of the sightings moderation worker (`src/worker.js`,
schema in `src/schema.sql`).

Modelling conventions:
* D1 (the record store) is a list of `Record` values; `INSERT` appends,
  `DELETE` filters, a conditional `UPDATE` maps over the rows and the
  reported `changes` count is the number of rows matching the `WHERE`
  clause.  `ORDER BY`, `LIMIT`, `OFFSET` follow SQLite semantics
  (a negative `LIMIT` means "no limit").
* KV (the blob store) is an association list from keys to the stored
  content type; `put` prepends, `get` returns the first binding,
  `delete` removes every binding for the key.
* JS numbers produced by `Number(...)` are embedded as `JSNum`: `NaN`
  or an exact decimal `m / 10^e`; `Math.min`/`Math.max` propagate `NaN`
  exactly as in JS.  The `Number` coercion is modelled for decimal
  numeral strings; every other string is non-numeric and maps to `NaN`.
* Strings are Lean `String`s; `trim`, `slice(0, n)` and `toLowerCase`
  are given character-list based definitions (`jsTrim`, `jsSlice`,
  `jsToLower`) mirroring the JS operations.
* Sources of nondeterminism of the handlers (`crypto.randomUUID()`,
  `Date.now()`) are passed in as explicit arguments.
-/

/-- Embedding of a JS number: either `NaN` or the exact decimal value
`m / 10^e` (the only values `Number` produces on the modelled decimal
numeral inputs). -/
inductive JSNum where
  | nan : JSNum
  | num (m : Int) (e : Nat) : JSNum
deriving DecidableEq

/-- `10^e` as an integer. -/
def tenPow : Nat → Int
  | 0 => 1
  | n + 1 => 10 * tenPow n

/-- Value comparison `m1/10^e1 < m2/10^e2` by cross-multiplication. -/
def decLt (m1 : Int) (e1 : Nat) (m2 : Int) (e2 : Nat) : Bool :=
  decide (m1 * tenPow e2 < m2 * tenPow e1)

/-- JS `Math.min` on two numbers: `NaN` if either argument is `NaN`,
otherwise the smaller value. -/
def jsMin : JSNum → JSNum → JSNum
  | JSNum.nan, _ => JSNum.nan
  | _, JSNum.nan => JSNum.nan
  | JSNum.num m1 e1, JSNum.num m2 e2 =>
    if decLt m1 e1 m2 e2 then JSNum.num m1 e1 else JSNum.num m2 e2

/-- JS `Math.max` on two numbers: `NaN` if either argument is `NaN`,
otherwise the larger value. -/
def jsMax : JSNum → JSNum → JSNum
  | JSNum.nan, _ => JSNum.nan
  | _, JSNum.nan => JSNum.nan
  | JSNum.num m1 e1, JSNum.num m2 e2 =>
    if decLt m1 e1 m2 e2 then JSNum.num m2 e2 else JSNum.num m1 e1

/-- Numeric value of a list of decimal digits (most significant first). -/
def natOfDigits (l : List Char) : Nat :=
  l.foldl (fun acc c => acc * 10 + (c.toNat - 48)) 0

/-- Parse an unsigned decimal numeral (`digits`, `digits.digits`,
`digits.` or `.digits`) into `(mantissa, decimals)`; `none` when the
characters do not form one. -/
def parseUnsigned (l : List Char) : Option (Nat × Nat) :=
  let intPart := l.takeWhile Char.isDigit
  let rest := l.dropWhile Char.isDigit
  match rest with
  | [] => if intPart.isEmpty then none else some (natOfDigits intPart, 0)
  | '.' :: frac =>
    if frac.all Char.isDigit ∧ ¬(intPart.isEmpty ∧ frac.isEmpty) then
      some (natOfDigits (intPart ++ frac), frac.length)
    else none
  | _ => none

/-- JS `trim`: drop whitespace from both ends. -/
def jsTrim (s : String) : String :=
  ⟨((s.data.dropWhile Char.isWhitespace).reverse.dropWhile Char.isWhitespace).reverse⟩

/-- JS `slice(0, n)`: keep the first `n` characters. -/
def jsSlice (n : Nat) (s : String) : String :=
  ⟨s.data.take n⟩

/-- JS `toLowerCase`. -/
def jsToLower (s : String) : String :=
  ⟨s.data.map Char.toLower⟩

/-- JS `Number(s)` for decimal numerals: the trimmed empty string is `0`,
an optionally signed decimal numeral is its value, anything else is
`NaN`.  (Hex/exponent/`Infinity` forms are outside the modelled input
space.) -/
def jsNumber (s : String) : JSNum :=
  match (jsTrim s).data with
  | [] => JSNum.num 0 0
  | l =>
    let signed : Int × List Char :=
      match l with
      | '+' :: r => (1, r)
      | '-' :: r => (-1, r)
      | r => (1, r)
    match parseUnsigned signed.2 with
    | some me => JSNum.num (signed.1 * (me.1 : Int)) me.2
    | none => JSNum.nan

/-- The suspicion meter computed by `handleCreateSighting`
(`Math.max(1, Math.min(10, Number(form.get('suspicious_meter') || '1')))`);
a missing or empty field is falsy in JS and replaced by the string `"1"`. -/
def meterOf (field : Option String) : JSNum :=
  let s := match field with
    | none => "1"
    | some "" => "1"
    | some v => v
  jsMax (JSNum.num 1 0) (jsMin (JSNum.num 10 0) (jsNumber s))

/-- Record status as constrained by the schema
(`status IN ('pending','approved')`). -/
inductive Status where
  | pending : Status
  | approved : Status
deriving DecidableEq

/-- A row of the `sightings` table.  `photos` models the parsed
`photos_json` column; `approved_at` is `NULL`able. -/
structure Record where
  id : String
  title : String
  description : String
  name : String
  email : String
  suspicious_meter : JSNum
  photos : List String
  submitted_at : Int
  approved_at : Option Int
  status : Status
deriving DecidableEq

/-- The KV image store: bindings from key to stored content type. -/
abbrev KV : Type := List (String × String)

/-- KV `put`: newest binding first. -/
def kvPut (k v : String) (kv : KV) : KV := (k, v) :: kv

/-- KV `get`: the newest binding for the key, if any. -/
def kvGet (k : String) (kv : KV) : Option String :=
  (kv.find? (fun p => decide (p.1 = k))).map Prod.snd

/-- KV `delete`: remove every binding for the key. -/
def kvDelete (k : String) (kv : KV) : KV :=
  kv.filter (fun p => decide (¬ p.1 = k))

/-- The full durable state: the D1 table plus the KV image store. -/
structure Store where
  db : List Record
  images : KV
deriving DecidableEq

/-- One `photos` part of the multipart form: either a text field
(ignored by the handler) or a file with a content type and a byte
length.  File bytes themselves are irrelevant to every claim and are
not modelled beyond their length. -/
inductive FilePart where
  | text (s : String) : FilePart
  | file (contentType : String) (size : Nat) : FilePart
deriving DecidableEq

/-- The raw multipart form as read by `handleCreateSighting`
(`form.get(...)` returns `null` for an absent field, modelled as
`none`). -/
structure CreateInput where
  title : Option String
  description : Option String
  name : Option String
  email : Option String
  suspicious_meter : Option String
  consent : Option String
  photos : List FilePart
deriving DecidableEq

/-- Outcome of `handleCreateSighting`: `201 {ok, id}` or a `400`
validation error. -/
inductive CreateResult where
  | ok (id : String) : CreateResult
  | badRequest (msg : String) : CreateResult
deriving DecidableEq

/-- `(form.get('title') || '').toString().trim().slice(0, 120)`. -/
def normTitle (i : CreateInput) : String :=
  jsSlice 120 (jsTrim (i.title.getD ""))

/-- `(form.get('description') || '').toString().trim().slice(0, 5000)`. -/
def normDescription (i : CreateInput) : String :=
  jsSlice 5000 (jsTrim (i.description.getD ""))

/-- `(form.get('name') || '').toString().trim().slice(0, 80) || 'Anonymous'`. -/
def normName (i : CreateInput) : String :=
  let n := jsSlice 80 (jsTrim (i.name.getD ""))
  if n = "" then "Anonymous" else n

/-- `(form.get('email') || '').toString().trim().slice(0, 120)`. -/
def normEmail (i : CreateInput) : String :=
  jsSlice 120 (jsTrim (i.email.getD ""))

/-- `form.get('consent') === 'on' || form.get('consent') === 'true'`. -/
def consentGiven (i : CreateInput) : Bool :=
  decide (i.consent = some "on") || decide (i.consent = some "true")

/-- The content-type allow list of `handleCreateSighting`. -/
def allowedTypes : List String := ["image/jpeg", "image/png", "image/webp"]

/-- The `for (const file of files.slice(0, 1))` loop of
`handleCreateSighting`: skip text parts, skip disallowed content types,
skip files over `1 * 1024 * 1024` bytes, otherwise store the bytes
under `img:<id>:<index>` and record the key.  Returns the collected
keys (`photos`) and the updated KV store. -/
def photosLoop (id : String) : List FilePart → Nat → KV → List String × KV
  | [], _, kv => ([], kv)
  | FilePart.text _ :: rest, index, kv => photosLoop id rest index kv
  | FilePart.file ty sz :: rest, index, kv =>
    let t := jsToLower ty
    if ¬ (allowedTypes.contains t) then photosLoop id rest index kv
    else if 1 * 1024 * 1024 < sz then photosLoop id rest index kv
    else
      let key := "img:" ++ id ++ ":" ++ toString index
      let r := photosLoop id rest (index + 1) (kvPut key t kv)
      (key :: r.1, r.2)

/-- `handleCreateSighting`: trim/truncate the fields, reject when the
title or description is empty or consent was not given (before touching
either store), then persist at most one accepted photo to KV and append
the new pending record to the table.  `id` stands for
`crypto.randomUUID()` and `now` for `Date.now()`. -/
def handleCreateSighting (i : CreateInput) (id : String) (now : Int) (s : Store) :
    Store × CreateResult :=
  if normTitle i = "" ∨ normDescription i = "" then
    (s, CreateResult.badRequest "Missing title/description")
  else if consentGiven i = false then
    (s, CreateResult.badRequest "Consent required")
  else
    let pr := photosLoop id (i.photos.take 1) 0 s.images
    (⟨s.db ++ [⟨id, normTitle i, normDescription i, normName i, normEmail i,
        meterOf i.suspicious_meter, pr.1, now, none, Status.pending⟩], pr.2⟩,
      CreateResult.ok id)

/-- The `WHERE id = ? AND status = 'pending'` guard of `handleApprove`. -/
def approveGuard (id : String) (r : Record) : Bool :=
  decide (r.id = id ∧ r.status = Status.pending)

/-- The row update performed by
`UPDATE sightings SET status = 'approved', approved_at = ? WHERE id = ? AND status = 'pending'`. -/
def approveUpdate (id : String) (now : Int) (r : Record) : Record :=
  if approveGuard id r then
    { r with status := Status.approved, approved_at := some now }
  else r

/-- `handleApprove`: the conditional update plus the reported
`res.meta.changes` (the number of rows matching the guard). -/
def handleApprove (id : String) (now : Int) (s : Store) : Store × Nat :=
  (⟨s.db.map (approveUpdate id now), s.images⟩,
   (s.db.filter (approveGuard id)).length)

/-- `handleReject`: read `photos_json` from the row (before any delete),
delete the row, then delete each listed image key from KV. -/
def handleReject (id : String) (s : Store) : Store :=
  let photos := match s.db.find? (fun r => decide (r.id = id)) with
    | some r => r.photos
    | none => []
  ⟨s.db.filter (fun r => decide (¬ r.id = id)),
   photos.foldl (fun kv k => kvDelete k kv) s.images⟩

/-- The cron handler:
`DELETE FROM sightings WHERE status = 'pending' AND submitted_at < ?`
with the cutoff `Date.now() - 48 * 60 * 60 * 1000`. -/
def scheduledExpire (now : Int) (s : Store) : Store :=
  ⟨s.db.filter (fun r =>
      decide (¬ (r.status = Status.pending ∧
        r.submitted_at < now - 48 * 60 * 60 * 1000))),
   s.images⟩

/-- A public feed item: exactly the fields assembled by
`handleListApproved` — note the absence of `email`. -/
structure PublicItem where
  id : String
  title : String
  description : String
  name : String
  suspicious_meter : JSNum
  photos : List String
  submitted_at : Int
  approved_at : Option Int
deriving DecidableEq

/-- A moderation-queue item: exactly the fields assembled by
`handleListPending`, including `email`. -/
structure PendingItem where
  id : String
  title : String
  description : String
  name : String
  email : String
  suspicious_meter : JSNum
  photos : List String
  submitted_at : Int
deriving DecidableEq

/-- `Math.min(50, Number(searchParams.get('limit') || 20))`; query
parameters are modelled as absent or an integer value. -/
def effLimit (p : Option Int) : Int := min 50 (p.getD 20)

/-- `Math.max(0, Number(searchParams.get('offset') || 0))`. -/
def effOffset (p : Option Int) : Int := max 0 (p.getD 0)

/-- SQLite `LIMIT lim OFFSET off`: skip `off` rows, then return at most
`lim` rows — unless `lim` is negative, in which case SQLite imposes no
upper bound. -/
def sqlPage (lim off : Int) (l : List Record) : List Record :=
  let d := l.drop off.toNat
  if lim < 0 then d else d.take lim.toNat

/-- `a < b` on the nullable `approved_at` column with SQLite's
`NULL`-sorts-first convention. -/
def approvedAtLt (a b : Option Int) : Bool :=
  match a, b with
  | none, none => false
  | none, some _ => true
  | some _, none => false
  | some x, some y => decide (x < y)

/-- Insert a row into a list sorted by `approved_at` descending. -/
def insertDesc (r : Record) : List Record → List Record
  | [] => [r]
  | x :: xs =>
    if approvedAtLt x.approved_at r.approved_at then r :: x :: xs
    else x :: insertDesc r xs

/-- `ORDER BY approved_at DESC`. -/
def sortDesc (l : List Record) : List Record := l.foldr insertDesc []

/-- Insert a row into a list sorted by `submitted_at` ascending. -/
def insertAsc (r : Record) : List Record → List Record
  | [] => [r]
  | x :: xs =>
    if decide (r.submitted_at < x.submitted_at) then r :: x :: xs
    else x :: insertAsc r xs

/-- `ORDER BY submitted_at ASC`. -/
def sortAsc (l : List Record) : List Record := l.foldr insertAsc []

/-- The public-feed projection of a row (`r.name || 'Anonymous'`;
no `email`). -/
def projPublic (r : Record) : PublicItem :=
  ⟨r.id, r.title, r.description, (if r.name = "" then "Anonymous" else r.name),
   r.suspicious_meter, r.photos, r.submitted_at, r.approved_at⟩

/-- The moderation-queue projection of a row (all fields, including
`email`). -/
def projPending (r : Record) : PendingItem :=
  ⟨r.id, r.title, r.description, r.name, r.email, r.suspicious_meter,
   r.photos, r.submitted_at⟩

/-- The `SELECT ... WHERE status = 'approved' ORDER BY approved_at DESC
LIMIT ? OFFSET ?` pipeline of `handleListApproved`, over the table. -/
def approvedItems (limP offP : Option Int) (db : List Record) : List PublicItem :=
  (sqlPage (effLimit limP) (effOffset offP)
      (sortDesc (db.filter (fun r => decide (r.status = Status.approved))))).map
    projPublic

/-- `handleListApproved` (GET `/api/sightings`). -/
def handleListApproved (limP offP : Option Int) (s : Store) : List PublicItem :=
  approvedItems limP offP s.db

/-- `handleListPending` (GET `/api/admin/pending`): pending rows,
oldest first, unpaginated, all fields. -/
def handleListPending (s : Store) : List PendingItem :=
  (sortAsc (s.db.filter (fun r => decide (r.status = Status.pending)))).map
    projPending

/-- The `Authorization` header as seen by `isAuthorized`.  `basic p`
models the value `"Basic " ++ base64(p)`: since `atob` is the exact
inverse of the base64 encoding, the header is identified with its
decoded payload `p` (a list of characters).  `nonBasic` covers any
header not starting with `"Basic "`, `missing` an absent header (the
code turns it into `''`, which also fails the prefix test). -/
inductive AuthHeader where
  | missing : AuthHeader
  | nonBasic (raw : List Char) : AuthHeader
  | basic (payload : List Char) : AuthHeader
deriving DecidableEq

/-- JS `creds.split(':')` on the decoded payload. -/
def splitOnColon : List Char → List (List Char)
  | [] => [[]]
  | c :: cs =>
    if c = ':' then [] :: splitOnColon cs
    else
      match splitOnColon cs with
      | [] => [[c]]
      | s :: rest => (c :: s) :: rest

/-- The `pass` of the JS destructuring `[user, pass] = creds.split(':')`:
the second element when there is one, otherwise `undefined` (here
`none`; `undefined === password` is `false` for a string password). -/
def secondElem : List (List Char) → Option (List Char)
  | _ :: x :: _ => some x
  | _ => none

/-- `isAuthorized`: require a `Basic` header, decode, split the payload
on `':'`; the destructuring `[user, pass] = creds.split(':')` takes
`pass` as the second segment, and the check is
`pass === env.ADMIN_PASSWORD`.  The user part is never consulted. -/
def isAuthorized (h : AuthHeader) (adminPassword : List Char) : Bool :=
  match h with
  | AuthHeader.basic payload =>
    match secondElem (splitOnColon payload) with
    | some pass => decide (pass = adminPassword)
    | none => false
  | _ => false

/-- The characters of the payload strictly between the first colon and
the following colon (or the end when there is no second colon); `none`
when the payload has no colon at all.  This is the specification-side
reading of "the segment between the first and second colon". -/
def segmentAfterFirstColon (l : List Char) : Option (List Char) :=
  if ':' ∈ l then
    some (((l.dropWhile (fun c => decide (¬ c = ':'))).drop 1).takeWhile
      (fun c => decide (¬ c = ':')))
  else none

/-- The per-row invariant carried through the lifecycle induction:
every row was submitted no later than the current clock, an approved
row carries an `approved_at` between its `submitted_at` and the clock,
and a pending row has no `approved_at`. -/
def RecordOk (t : Int) (r : Record) : Prop :=
  r.submitted_at ≤ t ∧
  (r.status = Status.approved →
    ∃ a, r.approved_at = some a ∧ r.submitted_at ≤ a ∧ a ≤ t) ∧
  (r.status = Status.pending → r.approved_at = none)

/-- The moderation lifecycle as a transition system over the two
stores: any interleaving of intake, approve, reject and expiry steps
starting from the empty state.  The clock argument records the last
`Date.now()` value observed; each time-stamped step requires a
monotonically nondecreasing clock (real time does not run backwards
between a create and a later approve). -/
inductive Reachable : Store → Int → Prop where
  | init (t : Int) : Reachable ⟨[], []⟩ t
  | step_create (s : Store) (t : Int) (i : CreateInput) (id : String) (now : Int) :
      Reachable s t → t ≤ now → Reachable (handleCreateSighting i id now s).1 now
  | step_approve (s : Store) (t : Int) (id : String) (now : Int) :
      Reachable s t → t ≤ now → Reachable (handleApprove id now s).1 now
  | step_reject (s : Store) (t : Int) (id : String) :
      Reachable s t → Reachable (handleReject id s) t
  | step_expire (s : Store) (t : Int) (now : Int) :
      Reachable s t → t ≤ now → Reachable (scheduledExpire now s) now

/-- A `photos` part that `handleCreateSighting` silently drops: a text
part, a content type outside the allow list, or a size over
`1 * 1024 * 1024` bytes. -/
def droppedPart : FilePart → Bool
  | FilePart.text _ => true
  | FilePart.file ty sz =>
    !(allowedTypes.contains (jsToLower ty)) || decide (1 * 1024 * 1024 < sz)

/-- Erase the `email` column of a row (used to compare two stores that
agree everywhere except on emails). -/
def scrubEmail (r : Record) : Record := { r with email := "" }

/-- A store of 51 identical approved rows, for exercising the feed page
size. -/
def fiftyOneApproved : Store :=
  ⟨List.replicate 51
    ⟨"x", "t", "d", "n", "e", JSNum.num 1 0, [], 0, some 0, Status.approved⟩, []⟩

/-- A well-formed demo submission. -/
def demoCreateInput : CreateInput :=
  ⟨some "Big Foot", some "Saw something", none, none, some "5", some "on", []⟩

/-- The store after the demo submission at time 100 with id `"sid"`. -/
def demoState1 : Store := (handleCreateSighting demoCreateInput "sid" 100 ⟨[], []⟩).1

/-- The store after additionally approving `"sid"` at time 200. -/
def demoState2 : Store := (handleApprove "sid" 200 demoState1).1

/-- The row of `demoState2`. -/
def demoApproved : Record :=
  ⟨"sid", "Big Foot", "Saw something", "Anonymous", "", JSNum.num 5 0, [], 100,
    some 200, Status.approved⟩

/-- A valid demo submission carrying one attachment of a disallowed
content type. -/
def demoGifInput : CreateInput :=
  ⟨some "t", some "d", none, none, none, some "on", [FilePart.file "image/gif" 10]⟩

/-! ### Helper lemmas -/

theorem approveGuard_approveUpdate (id : String) (t : Int) (r : Record) :
    approveGuard id (approveUpdate id t r) = false := by
  unfold approveUpdate
  by_cases h : approveGuard id r = true
  · rw [if_pos h]
    simp [approveGuard]
  · rw [if_neg h]
    simp only [Bool.not_eq_true] at h
    exact h

theorem approveUpdate_no_match (id : String) (t : Int) (r : Record)
    (h : approveGuard id r = false) : approveUpdate id t r = r := by
  unfold approveUpdate
  rw [if_neg]
  simp [h]

theorem approveUpdate_idem (id : String) (t1 t2 : Int) (r : Record) :
    approveUpdate id t2 (approveUpdate id t1 r) = approveUpdate id t1 r :=
  approveUpdate_no_match id t2 _ (approveGuard_approveUpdate id t1 r)

theorem map_approveUpdate_idem (id : String) (t1 t2 : Int) (l : List Record) :
    (l.map (approveUpdate id t1)).map (approveUpdate id t2) = l.map (approveUpdate id t1) := by
  induction l with
  | nil => rfl
  | cons r l ih => simp [approveUpdate_idem, ih]

theorem filter_approveGuard_map (id : String) (t : Int) (l : List Record) :
    (l.map (approveUpdate id t)).filter (approveGuard id) = [] := by
  induction l with
  | nil => rfl
  | cons r l ih => simp [List.filter_cons, approveGuard_approveUpdate, ih]

theorem map_approveUpdate_of_no_match (id : String) (t : Int) (l : List Record)
    (h : ∀ r ∈ l, approveGuard id r = false) : l.map (approveUpdate id t) = l := by
  induction l with
  | nil => rfl
  | cons r l ih =>
    have hr := h r (List.mem_cons_self r l)
    simp only [List.map_cons]
    rw [ih (fun x hx => h x (List.mem_cons_of_mem r hx))]
    unfold approveUpdate
    simp [hr]

theorem filter_of_no_match (p : Record → Bool) (l : List Record)
    (h : ∀ r ∈ l, p r = false) : l.filter p = [] := by
  induction l with
  | nil => rfl
  | cons r l ih =>
    simp [List.filter_cons, h r (List.mem_cons_self r l),
      ih (fun x hx => h x (List.mem_cons_of_mem r hx))]

/-! ### C2 -/

/-- C2: evaluation of the stored `suspicionLevel` at the inputs named by
the claim.  Numeric inputs are clamped as claimed (`"0" ↦ 1`,
`"99" ↦ 10`, missing `↦ 1`), but the non-numeric input `"banana"`
yields `NaN` — `Math.max(1, Math.min(10, NaN))` is `NaN` in JS, so it
is *not* stored as `1` (binding `NaN` into the `INTEGER NOT NULL`
column cannot store `1`); and the fractional input `"5.5"` is kept as
`5.5`, not an integer. -/
theorem meter_coercion_code_bug :
    meterOf (some "banana") = JSNum.nan ∧
    meterOf (some "0") = JSNum.num 1 0 ∧
    meterOf (some "99") = JSNum.num 10 0 ∧
    meterOf none = JSNum.num 1 0 ∧
    meterOf (some "5.5") = JSNum.num 55 1 := by decide

/-! ### C5 -/

/-- C5: the scheduled expiry keeps the image store untouched and keeps
exactly the rows that are not (pending and submitted strictly before
`now - 48h`); in particular every approved row survives and a pending
row submitted one hour ago survives. -/
theorem expiry_deletes_exactly_stale_pending :
    ∀ (now : Int) (s : Store),
      (scheduledExpire now s).images = s.images ∧
      (∀ r : Record, r ∈ (scheduledExpire now s).db ↔
        r ∈ s.db ∧
          ¬ (r.status = Status.pending ∧
            r.submitted_at < now - 48 * 60 * 60 * 1000)) ∧
      (∀ r : Record, r ∈ s.db → r.submitted_at = now - 60 * 60 * 1000 →
        r ∈ (scheduledExpire now s).db) := by
  intro now s
  refine ⟨rfl, ?_, ?_⟩
  · intro r
    simp only [scheduledExpire, List.mem_filter, decide_eq_true_eq]
  · intro r hmem hsub
    simp only [scheduledExpire, List.mem_filter]
    refine ⟨hmem, ?_⟩
    simp only [decide_eq_true_eq]
    intro hcon
    omega

/-- C5 witness: a pending record submitted one hour before `now = 1000`
survives expiry. -/
theorem expiry_deletes_exactly_stale_pending_witness :
    (⟨"i", "t", "d", "n", "e", JSNum.num 1 0, [], 1000 - 60 * 60 * 1000, none,
      Status.pending⟩ : Record) ∈
      (scheduledExpire 1000
        ⟨[⟨"i", "t", "d", "n", "e", JSNum.num 1 0, [], 1000 - 60 * 60 * 1000, none,
          Status.pending⟩], []⟩).db :=
  (expiry_deletes_exactly_stale_pending 1000
    ⟨[⟨"i", "t", "d", "n", "e", JSNum.num 1 0, [], 1000 - 60 * 60 * 1000, none,
      Status.pending⟩], []⟩).2.2
    ⟨"i", "t", "d", "n", "e", JSNum.num 1 0, [], 1000 - 60 * 60 * 1000, none,
      Status.pending⟩ (by decide) (by decide)

/-! ### C4 -/

/-- C4: approval is a conditional update guarded on `status = 'pending'`:
a second `approve` of the same id changes nothing and reports `0`
changes, `approve` of an id with no row reports `0` changes and leaves
the store unchanged, and a row failing the guard is never modified. -/
theorem approve_idempotent :
    ∀ (s : Store) (id : String) (t1 t2 : Int),
      handleApprove id t2 (handleApprove id t1 s).1 = ((handleApprove id t1 s).1, 0) ∧
      (s.db.find? (fun r => decide (r.id = id)) = none →
        handleApprove id t1 s = (s, 0)) ∧
      (∀ r : Record, approveGuard id r = false → approveUpdate id t1 r = r) := by
  intro s id t1 t2
  refine ⟨?_, ?_, ?_⟩
  · simp [handleApprove, filter_approveGuard_map]
    exact fun a _ => approveUpdate_idem id t1 t2 a
  · intro h
    have h' : ∀ r ∈ s.db, ¬ (r.id = id) := by
      intro r hr
      have := List.find?_eq_none.mp h r hr
      simpa using this
    have hg : ∀ r ∈ s.db, approveGuard id r = false := by
      intro r hr
      simp [approveGuard, h' r hr]
    simp [handleApprove, map_approveUpdate_of_no_match id t1 s.db hg,
      filter_of_no_match _ _ hg]
  · intro r hr
    unfold approveUpdate
    simp [hr]

/-- C4 witness: approving an id absent from the store reports zero
changes and leaves the store unchanged. -/
theorem approve_idempotent_witness :
    handleApprove "ghost" 7 (⟨[], []⟩ : Store) = (⟨[], []⟩, 0) :=
  (approve_idempotent ⟨[], []⟩ "ghost" 7 7).2.1 (by decide)

/-! ### C3 -/

/-- C3: when the title or description is empty after trimming, or
consent is not `on`/`true`, `handleCreateSighting` returns the store
unchanged (no record, no blob) together with one of the two `400`
validation errors. -/
theorem create_validation_fail_fast :
    ∀ (i : CreateInput) (id : String) (now : Int) (s : Store),
      (jsTrim (i.title.getD "") = "" ∨ jsTrim (i.description.getD "") = "" ∨
        consentGiven i = false) →
      (handleCreateSighting i id now s).1 = s ∧
      ((handleCreateSighting i id now s).2 =
          CreateResult.badRequest "Missing title/description" ∨
        (handleCreateSighting i id now s).2 =
          CreateResult.badRequest "Consent required") := by
  intro i id now s h
  have hcases : normTitle i = "" ∨ normDescription i = "" ∨ consentGiven i = false := by
    rcases h with h | h | h
    · refine Or.inl ?_
      unfold normTitle
      rw [h]
      decide
    · refine Or.inr (Or.inl ?_)
      unfold normDescription
      rw [h]
      decide
    · exact Or.inr (Or.inr h)
  unfold handleCreateSighting
  rcases hcases with h1 | h1 | h1
  · rw [if_pos (Or.inl h1)]
    exact ⟨rfl, Or.inl rfl⟩
  · rw [if_pos (Or.inr h1)]
    exact ⟨rfl, Or.inl rfl⟩
  · by_cases h2 : normTitle i = "" ∨ normDescription i = ""
    · rw [if_pos h2]
      exact ⟨rfl, Or.inl rfl⟩
    · rw [if_neg h2, if_pos h1]
      exact ⟨rfl, Or.inr rfl⟩

/-- C3 witness: a submission with no title is rejected and the empty
store stays empty. -/
theorem create_validation_fail_fast_witness :
    (handleCreateSighting ⟨none, some "d", none, none, none, some "on", []⟩
        "x" 0 ⟨[], []⟩).1 = (⟨[], []⟩ : Store) ∧
    ((handleCreateSighting ⟨none, some "d", none, none, none, some "on", []⟩
          "x" 0 ⟨[], []⟩).2 = CreateResult.badRequest "Missing title/description" ∨
      (handleCreateSighting ⟨none, some "d", none, none, none, some "on", []⟩
          "x" 0 ⟨[], []⟩).2 = CreateResult.badRequest "Consent required") :=
  create_validation_fail_fast ⟨none, some "d", none, none, none, some "on", []⟩
    "x" 0 ⟨[], []⟩ (Or.inl (by decide))

/-! ### C1 -/

theorem kvGet_eq_none_iff (k : String) (kv : KV) :
    kvGet k kv = none ↔ ∀ p ∈ kv, ¬ p.1 = k := by
  simp [kvGet, List.find?_eq_none]

theorem kvGet_kvDelete_self (k : String) (kv : KV) :
    kvGet k (kvDelete k kv) = none := by
  rw [kvGet_eq_none_iff]
  intro p hp
  have := (List.mem_filter.mp hp).2
  simpa using this

theorem kvGet_none_kvDelete (k k2 : String) (kv : KV) (h : kvGet k kv = none) :
    kvGet k (kvDelete k2 kv) = none := by
  rw [kvGet_eq_none_iff] at h ⊢
  intro p hp
  exact h p (List.mem_filter.mp hp).1

theorem kvGet_foldl_delete_of_none (k : String) (ks : List String) (kv : KV)
    (h : kvGet k kv = none) :
    kvGet k (ks.foldl (fun acc kk => kvDelete kk acc) kv) = none := by
  induction ks generalizing kv with
  | nil => exact h
  | cons a as ih => exact ih (kvDelete a kv) (kvGet_none_kvDelete k a kv h)

theorem kvGet_foldl_delete_of_mem (k : String) (ks : List String) :
    ∀ kv : KV, k ∈ ks →
      kvGet k (ks.foldl (fun acc kk => kvDelete kk acc) kv) = none := by
  induction ks with
  | nil =>
    intro kv h
    cases h
  | cons a as ih =>
    intro kv h
    rcases List.mem_cons.mp h with rfl | hmem
    · exact kvGet_foldl_delete_of_none k as _ (kvGet_kvDelete_self k kv)
    · exact ih _ hmem

/-- C1: `handleReject` reads `photos_json` from the row before deleting
anything; afterwards no row with the id remains and every key that was
listed in the row's `photos` is gone from the image store. -/
theorem reject_deletes_record_and_blobs :
    ∀ (s : Store) (id : String),
      (handleReject id s).db.find? (fun r => decide (r.id = id)) = none ∧
      (∀ r : Record, s.db.find? (fun r0 => decide (r0.id = id)) = some r →
        ∀ k ∈ r.photos, kvGet k (handleReject id s).images = none) := by
  intro s id
  constructor
  · rw [List.find?_eq_none]
    intro x hx
    unfold handleReject at hx
    have := (List.mem_filter.mp hx).2
    simp only [decide_eq_true_eq] at this ⊢
    exact this
  · intro r hr k hk
    unfold handleReject
    simp only [hr]
    exact kvGet_foldl_delete_of_mem k r.photos _ hk

/-! ### C7 -/

theorem scrubEmail_status (r : Record) : (scrubEmail r).status = r.status := rfl

theorem scrubEmail_approved_at (r : Record) :
    (scrubEmail r).approved_at = r.approved_at := rfl

theorem projPublic_scrubEmail (r : Record) :
    projPublic (scrubEmail r) = projPublic r := rfl

theorem filter_status_map_scrubEmail (st : Status) (l : List Record) :
    (l.map scrubEmail).filter (fun r => decide (r.status = st)) =
      (l.filter (fun r => decide (r.status = st))).map scrubEmail := by
  induction l with
  | nil => rfl
  | cons r l ih =>
    simp only [List.map_cons, List.filter_cons, scrubEmail_status]
    by_cases h : r.status = st
    · simp [h, ih]
    · simp [h, ih]

theorem insertDesc_map_scrubEmail (r : Record) (l : List Record) :
    insertDesc (scrubEmail r) (l.map scrubEmail) = (insertDesc r l).map scrubEmail := by
  induction l with
  | nil => rfl
  | cons x xs ih =>
    simp only [List.map_cons, insertDesc, scrubEmail_approved_at]
    by_cases h : approvedAtLt x.approved_at r.approved_at = true
    · simp [h]
    · simp only [Bool.not_eq_true] at h
      simp [h, ih]

theorem sortDesc_map_scrubEmail (l : List Record) :
    sortDesc (l.map scrubEmail) = (sortDesc l).map scrubEmail := by
  induction l with
  | nil => rfl
  | cons x xs ih =>
    show insertDesc (scrubEmail x) (sortDesc (xs.map scrubEmail)) =
      (insertDesc x (sortDesc xs)).map scrubEmail
    rw [ih, insertDesc_map_scrubEmail]

theorem sqlPage_map_scrubEmail (lim off : Int) (l : List Record) :
    sqlPage lim off (l.map scrubEmail) = (sqlPage lim off l).map scrubEmail := by
  unfold sqlPage
  by_cases h : lim < 0
  · simp [h, List.map_drop]
  · simp [h, List.map_drop, List.map_take]

theorem approvedItems_map_scrubEmail (limP offP : Option Int) (db : List Record) :
    approvedItems limP offP (db.map scrubEmail) = approvedItems limP offP db := by
  unfold approvedItems
  rw [filter_status_map_scrubEmail, sortDesc_map_scrubEmail, sqlPage_map_scrubEmail,
    List.map_map]
  rfl

theorem mem_insertAsc (r x : Record) (l : List Record) :
    x ∈ insertAsc r l ↔ x = r ∨ x ∈ l := by
  induction l with
  | nil => simp [insertAsc]
  | cons y ys ih =>
    unfold insertAsc
    by_cases h : r.submitted_at < y.submitted_at
    · simp [h]
    · simp [h, ih]
      tauto

theorem mem_sortAsc (x : Record) (l : List Record) : x ∈ sortAsc l ↔ x ∈ l := by
  induction l with
  | nil => exact Iff.rfl
  | cons y ys ih =>
    show x ∈ insertAsc y (sortAsc ys) ↔ x ∈ y :: ys
    rw [mem_insertAsc]
    simp [ih]

/-- C7: the public feed is email-blind — two stores that agree after
erasing every `email` produce identical feed output for every page —
while every moderation-queue item carries the `email` of a row of the
store. -/
theorem public_feed_email_noninterference :
    ∀ (s1 s2 : Store),
      s1.db.map scrubEmail = s2.db.map scrubEmail →
      (∀ limP offP, handleListApproved limP offP s1 = handleListApproved limP offP s2) ∧
      (∀ it ∈ handleListPending s1, ∃ r, r ∈ s1.db ∧ it.email = r.email) := by
  intro s1 s2 h
  constructor
  · intro limP offP
    show approvedItems limP offP s1.db = approvedItems limP offP s2.db
    calc approvedItems limP offP s1.db
        = approvedItems limP offP (s1.db.map scrubEmail) :=
          (approvedItems_map_scrubEmail limP offP s1.db).symm
      _ = approvedItems limP offP (s2.db.map scrubEmail) := by rw [h]
      _ = approvedItems limP offP s2.db := approvedItems_map_scrubEmail limP offP s2.db
  · intro it hit
    unfold handleListPending at hit
    rcases List.mem_map.mp hit with ⟨r, hr, rfl⟩
    refine ⟨r, ?_, rfl⟩
    exact (List.mem_filter.mp ((mem_sortAsc r _).mp hr)).1

/-- C7 witness: two single-record stores differing only in the email
yield the same public feed page. -/
theorem public_feed_email_noninterference_witness :
    handleListApproved (some 5) (some 0)
        ⟨[⟨"i", "t", "d", "n", "a@x", JSNum.num 1 0, [], 0, some 5,
          Status.approved⟩], []⟩ =
      handleListApproved (some 5) (some 0)
        ⟨[⟨"i", "t", "d", "n", "b@y", JSNum.num 1 0, [], 0, some 5,
          Status.approved⟩], []⟩ :=
  (public_feed_email_noninterference
    ⟨[⟨"i", "t", "d", "n", "a@x", JSNum.num 1 0, [], 0, some 5, Status.approved⟩], []⟩
    ⟨[⟨"i", "t", "d", "n", "b@y", JSNum.num 1 0, [], 0, some 5, Status.approved⟩], []⟩
    (by decide)).1 (some 5) (some 0)

/-! ### C9 -/

/-- C9 counterexample: the code never floors the limit, and SQLite
imposes no bound for a negative `LIMIT`, so `limit=-1` over a store of
51 approved rows returns 51 items in a single public-feed read — the
claimed cap of 50 "regardless of the limit supplied" is false. -/
theorem feed_limit_counterexample :
    ¬ (handleListApproved (some (-1)) none fiftyOneApproved).length ≤ 50 := by decide

/-- C9 amended: the effective offset is always ≥ 0 (default 0 when
absent), the default limit is 20, and whenever the supplied limit is
absent or nonnegative a single public-feed read returns at most 50
items; only a negative limit value escapes the cap (SQLite treats a
negative `LIMIT` as unlimited). -/
theorem feed_page_bounds_amended :
    ∀ (limP offP : Option Int) (s : Store),
      0 ≤ limP.getD 0 →
      (handleListApproved limP offP s).length ≤ 50 ∧
      0 ≤ effOffset offP ∧ effLimit none = 20 ∧ effOffset none = 0 := by
  intro limP offP s h
  refine ⟨?_, le_max_left 0 _, by decide, by decide⟩
  have h0 : 0 ≤ effLimit limP := by
    cases limP with
    | none => decide
    | some v =>
      simp only [Option.getD_some] at h
      exact le_min (by norm_num) h
  have h50 : effLimit limP ≤ 50 := min_le_left _ _
  simp only [handleListApproved, approvedItems, sqlPage]
  rw [if_neg (not_lt.mpr h0), List.length_map]
  calc (List.take (effLimit limP).toNat _).length ≤ (effLimit limP).toNat :=
        List.length_take_le _ _
    _ ≤ 50 := by omega

/-- C9 amended witness: a concrete in-range request obeys all the
bounds. -/
theorem feed_page_bounds_amended_witness :
    (handleListApproved (some 7) (some 3) ⟨[], []⟩).length ≤ 50 ∧
    0 ≤ effOffset (some 3) ∧ effLimit none = 20 ∧ effOffset none = 0 :=
  feed_page_bounds_amended (some 7) (some 3) ⟨[], []⟩ (by decide)

/-! ### C8 -/

theorem photosLoop_dropped (id : String) (fs : List FilePart) :
    ∀ (index : Nat) (kv : KV), (∀ f ∈ fs, droppedPart f = true) →
      photosLoop id fs index kv = ([], kv) := by
  induction fs with
  | nil =>
    intro index kv _
    rfl
  | cons f rest ih =>
    intro index kv h
    have hf := h f (List.mem_cons_self f rest)
    have hrest : ∀ g ∈ rest, droppedPart g = true :=
      fun g hg => h g (List.mem_cons_of_mem f hg)
    cases f with
    | text str => exact ih index kv hrest
    | file ty sz =>
      by_cases hc : allowedTypes.contains (jsToLower ty) = true
      · have hsz : 1 * 1024 * 1024 < sz := by
          simp only [droppedPart, hc, Bool.not_true, Bool.false_or,
            decide_eq_true_eq] at hf
          exact hf
        show (if ¬ (allowedTypes.contains (jsToLower ty)) then photosLoop id rest index kv
          else if 1 * 1024 * 1024 < sz then photosLoop id rest index kv
          else _) = ([], kv)
        rw [if_neg (not_not_intro hc), if_pos hsz]
        exact ih index kv hrest
      · show (if ¬ (allowedTypes.contains (jsToLower ty)) then photosLoop id rest index kv
          else if 1 * 1024 * 1024 < sz then photosLoop id rest index kv
          else _) = ([], kv)
        rw [if_pos hc]
        exact ih index kv hrest

theorem normTitle_set_photos (i : CreateInput) (ps : List FilePart) :
    normTitle { i with photos := ps } = normTitle i := rfl

theorem normDescription_set_photos (i : CreateInput) (ps : List FilePart) :
    normDescription { i with photos := ps } = normDescription i := rfl

theorem normName_set_photos (i : CreateInput) (ps : List FilePart) :
    normName { i with photos := ps } = normName i := rfl

theorem normEmail_set_photos (i : CreateInput) (ps : List FilePart) :
    normEmail { i with photos := ps } = normEmail i := rfl

theorem consentGiven_set_photos (i : CreateInput) (ps : List FilePart) :
    consentGiven { i with photos := ps } = consentGiven i := rfl

/-- C8: only the first `photos` part matters (`files.slice(0, 1)`), and
whenever that first part is dropped — a text part, a content type
outside {jpeg, png, webp}, or more than 1 MiB — a valid submission
still creates its record, with an empty photo list and the image store
untouched, without any error. -/
theorem create_attachment_filtering :
    ∀ (i : CreateInput) (id : String) (now : Int) (s : Store),
      handleCreateSighting i id now s =
        handleCreateSighting { i with photos := i.photos.take 1 } id now s ∧
      (normTitle i ≠ "" → normDescription i ≠ "" → consentGiven i = true →
        (∀ f ∈ i.photos.take 1, droppedPart f = true) →
        handleCreateSighting i id now s =
          (⟨s.db ++ [⟨id, normTitle i, normDescription i, normName i, normEmail i,
              meterOf i.suspicious_meter, [], now, none, Status.pending⟩],
            s.images⟩, CreateResult.ok id)) := by
  intro i id now s
  constructor
  · simp only [handleCreateSighting, normTitle_set_photos, normDescription_set_photos,
      normName_set_photos, normEmail_set_photos, consentGiven_set_photos,
      List.take_take, Nat.min_self]
  · intro h1 h2 h3 h4
    have hp := photosLoop_dropped id (i.photos.take 1) 0 s.images h4
    simp [handleCreateSighting, hp, h1, h2, h3]

/-- C8 witness: an `image/gif` attachment is dropped, yet the record is
created with an empty photo list and the image store stays empty. -/
theorem create_attachment_filtering_witness :
    handleCreateSighting demoGifInput "u1" 5 ⟨[], []⟩ =
      (⟨[⟨"u1", "t", "d", "Anonymous", "", JSNum.num 1 0, [], 5, none,
        Status.pending⟩], []⟩, CreateResult.ok "u1") :=
  (create_attachment_filtering demoGifInput "u1" 5 ⟨[], []⟩).2 (by decide) (by decide)
    (by decide) (by decide)

/-- C1 witness: rejecting a record with one attachment removes the
attachment's key from the image store. -/
theorem reject_deletes_record_and_blobs_witness :
    kvGet "img:a:0"
      (handleReject "a"
        ⟨[⟨"a", "t", "d", "n", "e", JSNum.num 1 0, ["img:a:0"], 0, none,
          Status.pending⟩], [("img:a:0", "image/png")]⟩).images = none :=
  (reject_deletes_record_and_blobs
    ⟨[⟨"a", "t", "d", "n", "e", JSNum.num 1 0, ["img:a:0"], 0, none,
      Status.pending⟩], [("img:a:0", "image/png")]⟩ "a").2
    ⟨"a", "t", "d", "n", "e", JSNum.num 1 0, ["img:a:0"], 0, none,
      Status.pending⟩ (by decide) "img:a:0" (by decide)


/-! ### C10 -/

theorem splitOnColon_eq_takeWhile_cons (l : List Char) :
    ∃ rest, splitOnColon l =
      (l.takeWhile (fun c => decide (¬ c = ':'))) :: rest := by
  induction l with
  | nil => exact ⟨[], rfl⟩
  | cons c cs ih =>
    by_cases h : c = ':'
    · subst h
      refine ⟨splitOnColon cs, ?_⟩
      simp [splitOnColon, List.takeWhile_cons]
    · rcases ih with ⟨rest, hrest⟩
      refine ⟨rest, ?_⟩
      simp only [splitOnColon, if_neg h, hrest, List.takeWhile_cons]
      simp [h]

theorem segmentAfterFirstColon_cons (c : Char) (cs : List Char) (h : ¬ c = ':') :
    segmentAfterFirstColon (c :: cs) = segmentAfterFirstColon cs := by
  unfold segmentAfterFirstColon
  by_cases hm : ':' ∈ cs
  · rw [if_pos (List.mem_cons_of_mem c hm), if_pos hm]
    simp [List.dropWhile_cons, h]
  · rw [if_neg ?_, if_neg hm]
    intro hmem
    rcases List.mem_cons.mp hmem with hc | hc
    · exact h hc.symm
    · exact hm hc

theorem secondElem_splitOnColon (l : List Char) :
    secondElem (splitOnColon l) = segmentAfterFirstColon l := by
  induction l with
  | nil => simp [splitOnColon, secondElem, segmentAfterFirstColon]
  | cons c cs ih =>
    by_cases h : c = ':'
    · subst h
      rcases splitOnColon_eq_takeWhile_cons cs with ⟨rest, hrest⟩
      have hL : splitOnColon (':' :: cs) = [] :: splitOnColon cs := by
        simp [splitOnColon]
      rw [hL, hrest]
      have hR : segmentAfterFirstColon (':' :: cs) =
          some (cs.takeWhile (fun c => decide (¬ c = ':'))) := by
        unfold segmentAfterFirstColon
        rw [if_pos (List.mem_cons_self ':' cs)]
        simp [List.dropWhile_cons]
      rw [hR]
      rfl
    · rcases splitOnColon_eq_takeWhile_cons cs with ⟨rest, hrest⟩
      have hL : splitOnColon (c :: cs) =
          (c :: cs.takeWhile (fun c => decide (¬ c = ':'))) :: rest := by
        simp only [splitOnColon, if_neg h, hrest]
      rw [hL, segmentAfterFirstColon_cons c cs h, ← ih, hrest]
      cases rest <;> rfl

theorem colon_not_mem_takeWhile (l : List Char) :
    ':' ∉ l.takeWhile (fun c => decide (¬ c = ':')) := by
  induction l with
  | nil => simp
  | cons c cs ih =>
    by_cases h : c = ':'
    · subst h
      simp [List.takeWhile_cons]
    · rw [List.takeWhile_cons, if_pos (by simp [h])]
      intro hmem
      rcases List.mem_cons.mp hmem with hc | hc
      · exact h hc.symm
      · exact ih hc

theorem no_colon_of_mem_splitOnColon (l : List Char) :
    ∀ s ∈ splitOnColon l, ':' ∉ s := by
  induction l with
  | nil =>
    intro s hs
    have : s = ([] : List Char) := by simpa [splitOnColon] using hs
    subst this
    simp
  | cons c cs ih =>
    intro s hs
    by_cases h : c = ':'
    · subst h
      have hL : splitOnColon (':' :: cs) = [] :: splitOnColon cs := by
        simp [splitOnColon]
      rw [hL] at hs
      rcases List.mem_cons.mp hs with rfl | hmem
      · simp
      · exact ih s hmem
    · rcases splitOnColon_eq_takeWhile_cons cs with ⟨rest, hrest⟩
      have hL : splitOnColon (c :: cs) =
          (c :: cs.takeWhile (fun c => decide (¬ c = ':'))) :: rest := by
        simp only [splitOnColon, if_neg h, hrest]
      rw [hL] at hs
      rcases List.mem_cons.mp hs with rfl | hmem
      · intro hcol
        rcases List.mem_cons.mp hcol with hc | hc
        · exact h hc.symm
        · exact colon_not_mem_takeWhile cs hc
      · exact ih s (by rw [hrest]; exact List.mem_cons_of_mem _ hmem)

theorem splitOnColon_append (u w : List Char) (hu : ':' ∉ u) :
    splitOnColon (u ++ ':' :: w) = u :: splitOnColon w := by
  induction u with
  | nil => simp [splitOnColon]
  | cons c u' ih =>
    have hc : ¬ c = ':' := fun hh => hu (by rw [hh]; exact List.mem_cons_self _ _)
    have hu' : ':' ∉ u' := fun hh => hu (List.mem_cons_of_mem c hh)
    show (if c = ':' then [] :: splitOnColon (u' ++ ':' :: w)
      else match splitOnColon (u' ++ ':' :: w) with
        | [] => [[c]]
        | s :: rest => (c :: s) :: rest) = (c :: u') :: splitOnColon w
    rw [if_neg hc, ih hu']

theorem takeWhile_eq_self_of_no_colon (l : List Char) (h : ':' ∉ l) :
    l.takeWhile (fun c => decide (¬ c = ':')) = l := by
  induction l with
  | nil => rfl
  | cons c cs ih =>
    have hc : ¬ c = ':' := fun hh => h (by rw [hh]; exact List.mem_cons_self _ _)
    have hcs : ':' ∉ cs := fun hh => h (List.mem_cons_of_mem c hh)
    rw [List.takeWhile_cons, if_pos (by simp [hc]), ih hcs]

theorem secondElem_mem (xs : List (List Char)) (x : List Char)
    (h : secondElem xs = some x) : x ∈ xs := by
  cases xs with
  | nil => cases h
  | cons a rest =>
    cases rest with
    | nil => cases h
    | cons y rest2 =>
      have : y = x := by simpa [secondElem] using h
      subst this
      exact List.mem_cons_of_mem a (List.mem_cons_self y rest2)

/-- C10: the operator check ignores the username: a header authorizes
iff it is `Basic` and the decoded payload's segment between the first
and the second colon (or the end) equals the configured secret; hence
`u:secret` is accepted for every colon-free username `u` when the
secret is colon-free, and a secret containing a colon can never
authorize any header at all. -/
theorem auth_ignores_username :
    (∀ (p pw : List Char),
      isAuthorized (AuthHeader.basic p) pw = true ↔
        segmentAfterFirstColon p = some pw) ∧
    (∀ (u pw : List Char), ':' ∉ u → ':' ∉ pw →
      isAuthorized (AuthHeader.basic (u ++ ':' :: pw)) pw = true) ∧
    (∀ (h : AuthHeader) (pw : List Char), ':' ∈ pw →
      isAuthorized h pw = false) := by
  refine ⟨?_, ?_, ?_⟩
  · intro p pw
    show (match secondElem (splitOnColon p) with
      | some pass => decide (pass = pw)
      | none => false) = true ↔ segmentAfterFirstColon p = some pw
    rw [secondElem_splitOnColon]
    cases hseg : segmentAfterFirstColon p with
    | none => simp
    | some seg => simp
  · intro u pw hu hpw
    show (match secondElem (splitOnColon (u ++ ':' :: pw)) with
      | some pass => decide (pass = pw)
      | none => false) = true
    rw [splitOnColon_append u pw hu]
    rcases splitOnColon_eq_takeWhile_cons pw with ⟨rest, hrest⟩
    rw [hrest]
    simp only [secondElem, decide_eq_true_eq]
    exact takeWhile_eq_self_of_no_colon pw hpw
  · intro h pw hpw
    cases h with
    | missing => rfl
    | nonBasic raw => rfl
    | basic payload =>
      show (match secondElem (splitOnColon payload) with
        | some pass => decide (pass = pw)
        | none => false) = false
      cases hs : secondElem (splitOnColon payload) with
      | none => rfl
      | some pass =>
        have hmem := secondElem_mem _ _ hs
        have hnc := no_colon_of_mem_splitOnColon payload pass hmem
        have hne : ¬ pass = pw := fun hh => hnc (hh ▸ hpw)
        simp [hs, hne]

/-- C10 witness: the credential `u:s` authorizes against the secret
`s`, whatever the username. -/
theorem auth_ignores_username_witness :
    isAuthorized (AuthHeader.basic (['u'] ++ ':' :: ['s'])) ['s'] = true :=
  auth_ignores_username.2.1 ['u'] ['s'] (by decide) (by decide)

/-! ### C6 -/

theorem recordOk_mono {t1 t2 : Int} (h : t1 ≤ t2) {r : Record}
    (hr : RecordOk t1 r) : RecordOk t2 r := by
  refine ⟨le_trans hr.1 h, fun ha => ?_, hr.2.2⟩
  rcases hr.2.1 ha with ⟨a, h1, h2, h3⟩
  exact ⟨a, h1, h2, le_trans h3 h⟩

theorem create_db_mem (i : CreateInput) (id : String) (now : Int) (s : Store) :
    ∀ r ∈ (handleCreateSighting i id now s).1.db,
      r ∈ s.db ∨
        (r.submitted_at = now ∧ r.approved_at = none ∧
          r.status = Status.pending) := by
  intro r hr
  unfold handleCreateSighting at hr
  by_cases h1 : normTitle i = "" ∨ normDescription i = ""
  · rw [if_pos h1] at hr
    exact Or.inl hr
  · rw [if_neg h1] at hr
    by_cases h2 : consentGiven i = false
    · rw [if_pos h2] at hr
      exact Or.inl hr
    · rw [if_neg h2] at hr
      simp only [List.mem_append, List.mem_singleton] at hr
      rcases hr with hr | rfl
      · exact Or.inl hr
      · exact Or.inr ⟨rfl, rfl, rfl⟩

theorem reachable_recordOk (s : Store) (t : Int) (h : Reachable s t) :
    ∀ r ∈ s.db, RecordOk t r := by
  induction h with
  | init t =>
    intro r hr
    cases hr
  | step_create s t i id now hreach hle ih =>
    intro r hr
    rcases create_db_mem i id now s r hr with hold | hnew
    · exact recordOk_mono hle (ih r hold)
    · refine ⟨le_of_eq hnew.1, fun hap => ?_, fun _ => hnew.2.1⟩
      rw [hnew.2.2] at hap
      cases hap
  | step_approve s t id now hreach hle ih =>
    intro r hr
    unfold handleApprove at hr
    rcases List.mem_map.mp hr with ⟨r0, hr0, rfl⟩
    have h0 : RecordOk now r0 := recordOk_mono hle (ih r0 hr0)
    by_cases hg : approveGuard id r0 = true
    · unfold approveUpdate
      rw [if_pos hg]
      exact ⟨h0.1, fun _ => ⟨now, rfl, h0.1, le_refl now⟩,
        fun hpend => Status.noConfusion hpend⟩
    · simp only [Bool.not_eq_true] at hg
      rw [approveUpdate_no_match id now r0 hg]
      exact h0
  | step_reject s t id hreach ih =>
    intro r hr
    unfold handleReject at hr
    exact ih r (List.mem_filter.mp hr).1
  | step_expire s t now hreach hle ih =>
    intro r hr
    unfold scheduledExpire at hr
    exact recordOk_mono hle (ih r (List.mem_filter.mp hr).1)

/-- C6: in every state reachable through create/approve/reject/expire
(with a nondecreasing clock), an approved row has `approved_at` set and
no earlier than its `submitted_at`, and a pending row has no
`approved_at`. -/
theorem lifecycle_approved_timestamps :
    ∀ (s : Store) (t : Int), Reachable s t → ∀ r ∈ s.db,
      (r.status = Status.approved →
        ∃ a, r.approved_at = some a ∧ r.submitted_at ≤ a) ∧
      (r.status = Status.pending → r.approved_at = none) := by
  intro s t h r hr
  have hk := reachable_recordOk s t h r hr
  refine ⟨fun ha => ?_, hk.2.2⟩
  rcases hk.2.1 ha with ⟨a, h1, h2, _⟩
  exact ⟨a, h1, h2⟩

/-- C6 witness: after a concrete create-then-approve run the approved
row satisfies both invariants. -/
theorem lifecycle_approved_timestamps_witness :
    (demoApproved.status = Status.approved →
      ∃ a, demoApproved.approved_at = some a ∧ demoApproved.submitted_at ≤ a) ∧
    (demoApproved.status = Status.pending → demoApproved.approved_at = none) :=
  lifecycle_approved_timestamps demoState2 200
    (Reachable.step_approve demoState1 100 "sid" 200
      (Reachable.step_create ⟨[], []⟩ 100 demoCreateInput "sid" 100
        (Reachable.init 100) (by decide))
      (by decide))
    demoApproved (by decide)
